import Mathlib

/-!
Verification of the zap-loki log-forwarding adapter (package `zaploki`).

The embedding below translates the Go source, primarily `zaploki.go`
(the current revision: `lokiPusher`, its `run` loop, `newLog`, `Hook`,
`send`) and the sink's `Write` method, into executable Lean definitions.

Modelling conventions:
* `logEntry.Timestamp` is a Go `float64` that, on the hook path, always
  holds an integral number of milliseconds (`e.Time.UnixMilli()`); it is
  modelled as `Int`, and Go's `int64(entry.Timestamp)` conversion is the
  identity on these integral values.
* The `run` goroutine's `select` loop is modelled as a step function on
  the batch buffer (`runStep`) driven by one event at a time: an entry
  arriving on the channel, a ticker fire, the `quit` channel closing
  (graceful `Stop`), or the parent context's cancellation.  The deferred
  final flush that `run` installs is part of the trace executor
  (`runExec`), which stops consuming events once the loop returns.
* `time.NewTicker(BatchMaxWait)` is never reset in `run`, so its fire
  times are the positive multiples of `BatchMaxWait`; `validTraceFrom`
  constrains timed traces accordingly.
* The HTTP exchange inside `send` is external; only its status-code
  check (`resp.StatusCode != http.StatusNoContent`) is modelled, and a
  send's outcome enters `runStep` as an `Option String` error value.
* `json.Unmarshal` inside the sink's `Write` is an external collaborator
  and is passed to `sinkWrite` as a function parameter.
-/

namespace ZapLoki

/-- Go struct `logEntry` from `zaploki.go`: level, ts (float64 holding
integral milliseconds, modelled as `Int`), msg, caller, and the
unexported `raw` payload string. -/
structure LogEntry where
  level : String
  timestamp : Int
  message : String
  caller : String
  raw : String
deriving DecidableEq

/-- The value-object view of `zapcore.Entry` that `Hook` consumes:
`e.Level.String()`, `e.Time.UnixMilli()`, `e.Message`,
`e.Caller.TrimmedPath()`. -/
structure ZapEntry where
  levelString : String
  timeUnixMilli : Int
  message : String
  callerTrimmedPath : String
deriving DecidableEq

/-- `time.Unix(sec, 0).UnixNano()`: interprets its argument as whole
seconds since the epoch and converts to nanoseconds. -/
def unixNanoOfSeconds (sec : Int) : Int :=
  sec * 1000000000

/-- `newLog` from `zaploki.go`:
`ts := time.Unix(int64(entry.Timestamp), 0)` followed by
`[]string{strconv.FormatInt(ts.UnixNano(), 10), entry.raw}`. -/
def newLog (entry : LogEntry) : List String :=
  [toString (unixNanoOfSeconds entry.timestamp), entry.raw]

/-- `Hook` from `zaploki.go`: builds a `logEntry` from the zap entry
(leaving `raw` at its zero value `""`), sends it on `lp.entry`, and
returns `nil`.  The result pairs the entry handed off with the error
returned to the caller. -/
def Hook (e : ZapEntry) : LogEntry × Option String :=
  ({ level := e.levelString
     timestamp := e.timeUnixMilli
     message := e.message
     caller := e.callerTrimmedPath
     raw := "" },
   none)

/-- The sink's `Write` method (`sink.go`): `json.Unmarshal(p, &entry)`;
on error return `(0, err)` without touching the channel; otherwise set
`entry.raw = string(p)`, send the entry on `lp.entry`, and return
`(len(p), nil)`.  The result pairs `Write`'s return value with the list
of entries handed off to the channel. -/
def sinkWrite (unmarshal : String → Except String LogEntry) (p : String) :
    (Nat × Option String) × List LogEntry :=
  match unmarshal p with
  | .error msg => ((0, some msg), [])
  | .ok entry => ((p.length, none), [{ entry with raw := p }])

/-- The intake contract in the spec's words, for comparison with
`sinkWrite`: a malformed record yields a parse error and no hand-off; a
well-formed record yields exactly one queued entry carrying the input
bytes verbatim as its raw payload, and the input length with no error. -/
def writeSpec (p : String) : Except String LogEntry → (Nat × Option String) × List LogEntry
  | .error msg => ((0, some msg), [])
  | .ok e => ((p.length, none), [{ e with raw := p }])

/-- `http.StatusNoContent`. -/
def statusNoContent : Nat := 204

/-- The response check at the end of `send`:
`if resp.StatusCode != http.StatusNoContent { return fmt.Errorf(...) }`
followed by `return nil`. -/
def sendStatusResult (statusCode : Nat) (status : String) : Option String :=
  if statusCode ≠ statusNoContent then
    some ("recieved unexpected response code from Loki: " ++ status)
  else
    none

/-- The four event sources of the `select` in `run`: an entry received
on `lp.entry`, a fire of `ticker.C`, the `quit` channel closing, and
`lp.ctx.Done()`. -/
inductive Event where
  | arrive (e : LogEntry)
  | tick
  | quit
  | cancel
deriving DecidableEq

/-- How a particular send was triggered: the size check after an entry
arrival, the ticker branch, or the deferred final flush installed at the
top of `run`. -/
inductive FlushCause where
  | size
  | timer
  | final
deriving DecidableEq

/-- One transmission attempt performed by the `run` loop: its trigger,
the (model) time at which it happened, and the `logsBatch` contents
passed to `send`. -/
structure Flush where
  cause : FlushCause
  time : Int
  values : List (List String)
deriving DecidableEq

/-- `slog.Error("failed to send logs", ...)`: the log line emitted when
a send returns a non-nil error. -/
def sendLogMsg (err : Option String) : List String :=
  match err with
  | some m => ["failed to send logs: " ++ m]
  | none => []

/-- Result of one iteration of `run`'s `select`: the new `logsBatch`,
the values passed to `send` if a send happened, the error-log output,
and whether the loop returned. -/
structure StepOut where
  batch : List (List String)
  flushed : Option (List (List String))
  logged : List String
  returned : Bool
deriving DecidableEq

/-- One iteration of the `select` loop in `run` (`zaploki.go`), with the
outcome of `send` supplied as `sendErr`:
* entry arrival appends `newLog entry`; if
  `len(lp.logsBatch) >= lp.config.BatchMaxSize` it sends, logs any
  error, and resets `lp.logsBatch`;
* a ticker fire sends and resets only when `len(lp.logsBatch) > 0`;
* `quit` or context cancellation returns from the loop. -/
def runStep (maxSize : Int) (sendErr : Option String)
    (batch : List (List String)) : Event → StepOut
  | .arrive e =>
    let b := batch ++ [newLog e]
    if (b.length : Int) ≥ maxSize then
      { batch := [], flushed := some b, logged := sendLogMsg sendErr, returned := false }
    else
      { batch := b, flushed := none, logged := [], returned := false }
  | .tick =>
    if batch.length > 0 then
      { batch := [], flushed := some batch, logged := sendLogMsg sendErr, returned := false }
    else
      { batch := batch, flushed := none, logged := [], returned := false }
  | .quit =>
    { batch := batch, flushed := none, logged := [], returned := true }
  | .cancel =>
    { batch := batch, flushed := none, logged := [], returned := true }

/-- The cause a flush emitted while handling the given event carries. -/
def flushCauseOf : Event → FlushCause
  | .arrive _ => .size
  | .tick => .timer
  | .quit => .final
  | .cancel => .final

/-- Trace executor for `run`: processes timed events with `runStep`,
recording every transmission attempt.  When the loop returns (on `quit`
or cancellation) the deferred function runs: if `len(lp.logsBatch) > 0`
one final `send` is attempted, and no further events are consumed. -/
def runExec (maxSize : Int) (batch : List (List String)) :
    List (Int × Event) → List Flush
  | [] => []
  | (t, ev) :: rest =>
    let out := runStep maxSize none batch ev
    if out.returned then
      if batch = [] then []
      else [{ cause := FlushCause.final, time := t, values := batch }]
    else
      match out.flushed with
      | some vs =>
        { cause := flushCauseOf ev, time := t, values := vs } ::
          runExec maxSize out.batch rest
      | none => runExec maxSize out.batch rest

/-- The successive `logsBatch` states of the `run` loop, one per
processed event (the state once the loop has returned is final). -/
def runStates (maxSize : Int) (batch : List (List String)) :
    List Event → List (List (List String))
  | [] => []
  | ev :: rest =>
    let out := runStep maxSize none batch ev
    if out.returned then [out.batch]
    else out.batch :: runStates maxSize out.batch rest

/-- Timed traces admitted by the code: event times are nondecreasing
starting from `now`, and — because `run` creates its ticker once and
never resets it — the `(k+1)`-st ticker fire happens exactly at time
`W * (k+1)` counted from the ticker's creation. -/
def validTraceFrom (W now : Int) (k : Nat) : List (Int × Event) → Bool
  | [] => true
  | (t, ev) :: rest =>
    decide (now ≤ t) &&
    (match ev with
     | .tick => t == W * ((k : Int) + 1)
     | _ => true) &&
    validTraceFrom W t
      (match ev with
       | .tick => k + 1
       | _ => k) rest

/-- A sample entry used to instantiate universally quantified theorems
on concrete inputs. -/
def le0 : LogEntry :=
  { level := "info", timestamp := 0, message := "hello", caller := "main.go:10", raw := "r0" }

/-- A second sample entry. -/
def le1 : LogEntry :=
  { level := "warn", timestamp := 1, message := "world", caller := "main.go:11", raw := "r1" }

/-- A third sample entry. -/
def le2 : LogEntry :=
  { level := "error", timestamp := 2, message := "again", caller := "main.go:12", raw := "r2" }

/-- Unfolding `runExec` on an entry arrival that fills the batch: the
size check fires, the batch is sent and reset. -/
lemma runExec_arrive_flush (maxSize : Int) (batch : List (List String))
    (e : LogEntry) (t : Int) (rest : List (Int × Event))
    (h : (((batch ++ [newLog e]).length : Nat) : Int) ≥ maxSize) :
    runExec maxSize batch ((t, Event.arrive e) :: rest) =
      { cause := FlushCause.size, time := t, values := batch ++ [newLog e] } ::
        runExec maxSize [] rest := by
  have h' : maxSize ≤ (batch.length : Int) + 1 := by simpa using h
  simp [runExec, runStep, flushCauseOf, h']

/-- Unfolding `runExec` on an entry arrival below the size threshold:
the entry is appended and no send happens. -/
lemma runExec_arrive_noflush (maxSize : Int) (batch : List (List String))
    (e : LogEntry) (t : Int) (rest : List (Int × Event))
    (h : ¬ ((((batch ++ [newLog e]).length : Nat) : Int) ≥ maxSize)) :
    runExec maxSize batch ((t, Event.arrive e) :: rest) =
      runExec maxSize (batch ++ [newLog e]) rest := by
  have h' : ¬ maxSize ≤ (batch.length : Int) + 1 := by simpa using h
  simp [runExec, runStep, h']

/-- Unfolding `runExec` on a ticker fire with a non-empty batch: the
batch is sent and reset. -/
lemma runExec_tick_flush (maxSize : Int) (batch : List (List String))
    (t : Int) (rest : List (Int × Event)) (h : batch.length > 0) :
    runExec maxSize batch ((t, Event.tick) :: rest) =
      { cause := FlushCause.timer, time := t, values := batch } ::
        runExec maxSize [] rest := by
  simp [runExec, runStep, flushCauseOf, h]

/-- Unfolding `runExec` on a ticker fire with an empty batch: a no-op. -/
lemma runExec_tick_empty (maxSize : Int) (batch : List (List String))
    (t : Int) (rest : List (Int × Event)) (h : ¬ batch.length > 0) :
    runExec maxSize batch ((t, Event.tick) :: rest) =
      runExec maxSize batch rest := by
  simp [runExec, runStep, if_neg h]

/-- Unfolding `runExec` on context cancellation: the loop returns, the
deferred final flush sends the pending batch if non-empty, and no
further events are consumed. -/
lemma runExec_halt_cancel (maxSize : Int) (batch : List (List String))
    (t : Int) (rest : List (Int × Event)) :
    runExec maxSize batch ((t, Event.cancel) :: rest) =
      if batch = [] then []
      else [{ cause := FlushCause.final, time := t, values := batch }] := by
  simp [runExec, runStep]

/-- Unfolding `runExec` on the `quit` channel closing: same shape as
cancellation — return, then the deferred final flush. -/
lemma runExec_halt_quit (maxSize : Int) (batch : List (List String))
    (t : Int) (rest : List (Int × Event)) :
    runExec maxSize batch ((t, Event.quit) :: rest) =
      if batch = [] then []
      else [{ cause := FlushCause.final, time := t, values := batch }] := by
  simp [runExec, runStep]

/-- A run of arrivals that exactly fills the batch from a partial buffer
produces a single size-triggered flush of the whole buffer. -/
lemma runExec_arrivals_aux (maxSize : Int) :
    ∀ (es : List LogEntry) (b : List (List String)),
      es ≠ [] → ((b.length : Int) + es.length = maxSize) →
      runExec maxSize b (es.map (fun e => ((0 : Int), Event.arrive e))) =
        [{ cause := FlushCause.size, time := 0, values := b ++ es.map newLog }] := by
  intro es
  induction es with
  | nil => intro b hne _; exact absurd rfl hne
  | cons e tl ih =>
    intro b _ hlen
    simp only [List.map_cons]
    cases tl with
    | nil =>
      have hc : (((b ++ [newLog e]).length : Nat) : Int) ≥ maxSize := by
        simp at hlen ⊢; omega
      rw [runExec_arrive_flush maxSize b e 0 _ hc]
      simp [runExec]
    | cons e2 tl2 =>
      have hc : ¬ ((((b ++ [newLog e]).length : Nat) : Int) ≥ maxSize) := by
        simp at hlen ⊢
        omega
      rw [runExec_arrive_noflush maxSize b e 0 _ hc]
      have hrec := ih (b ++ [newLog e]) (by simp) (by
        simp at hlen ⊢
        omega)
      rw [hrec]
      simp

/-- One `run` iteration keeps the batch length within a non-negative
`BatchMaxSize`. -/
lemma runStep_batch_length_le (maxSize : Int) (sendErr : Option String)
    (batch : List (List String)) (ev : Event) (h0 : 0 ≤ maxSize)
    (hb : (batch.length : Int) ≤ maxSize) :
    (((runStep maxSize sendErr batch ev).batch).length : Int) ≤ maxSize := by
  cases ev with
  | arrive e =>
    simp only [runStep]
    split
    · simpa using h0
    · rename_i hc
      simp at hc ⊢
      omega
  | tick =>
    simp only [runStep]
    split
    · simpa using h0
    · simpa using hb
  | quit => simpa [runStep] using hb
  | cancel => simpa [runStep] using hb

/-- Every batch state reached by the `run` loop from a state within the
bound stays within the bound. -/
lemma runStates_length_le (maxSize : Int) (h0 : 0 ≤ maxSize) :
    ∀ (events : List Event) (batch : List (List String)),
      (batch.length : Int) ≤ maxSize →
      ∀ b ∈ runStates maxSize batch events, (b.length : Int) ≤ maxSize := by
  intro events
  induction events with
  | nil =>
    intro batch _ b hmem
    simp [runStates] at hmem
  | cons ev rest ih =>
    intro batch hb b hmem
    simp only [runStates] at hmem
    split at hmem
    · rcases List.mem_singleton.mp hmem with rfl
      exact runStep_batch_length_le maxSize none batch ev h0 hb
    · rcases List.mem_cons.mp hmem with rfl | hmem2
      · exact runStep_batch_length_le maxSize none batch ev h0 hb
      · exact ih _ (runStep_batch_length_le maxSize none batch ev h0 hb) b hmem2

/-- Whenever a `run` iteration attempts a send, the resulting batch is
empty, whatever the send's outcome was. -/
lemma runStep_flush_resets (maxSize : Int) (sendErr : Option String)
    (batch : List (List String)) (ev : Event)
    (hf : ((runStep maxSize sendErr batch ev).flushed).isSome = true) :
    (runStep maxSize sendErr batch ev).batch = [] := by
  cases ev with
  | arrive e =>
    simp only [runStep] at hf ⊢
    split at hf <;> simp_all
  | tick =>
    simp only [runStep] at hf ⊢
    split at hf <;> simp_all
  | quit => simp [runStep] at hf
  | cancel => simp [runStep] at hf

/-- In a trace admitted by the never-reset ticker, every timer-triggered
flush happens at one of the ticker's scheduled fire times. -/
lemma runExec_timer_mult (W maxSize : Int) :
    ∀ (trace : List (Int × Event)) (now : Int) (k : Nat) (batch : List (List String)),
      validTraceFrom W now k trace = true →
      ∀ f ∈ runExec maxSize batch trace, f.cause = FlushCause.timer →
        ∃ m : Nat, k < m ∧ f.time = W * m := by
  intro trace
  induction trace with
  | nil =>
    intro now k batch _ f hf
    simp [runExec] at hf
  | cons p rest ih =>
    obtain ⟨t, ev⟩ := p
    intro now k batch hv f hf hc
    cases ev with
    | arrive e =>
      simp only [validTraceFrom, Bool.and_eq_true, decide_eq_true_eq] at hv
      obtain ⟨⟨hnow, -⟩, hrest⟩ := hv
      by_cases hcnd : (((batch ++ [newLog e]).length : Nat) : Int) ≥ maxSize
      · rw [runExec_arrive_flush maxSize batch e t rest hcnd] at hf
        rcases List.mem_cons.mp hf with rfl | hmem
        · simp [flushCauseOf] at hc
        · exact ih t k [] hrest f hmem hc
      · rw [runExec_arrive_noflush maxSize batch e t rest hcnd] at hf
        exact ih t k _ hrest f hf hc
    | tick =>
      simp only [validTraceFrom, Bool.and_eq_true, decide_eq_true_eq, beq_iff_eq] at hv
      obtain ⟨⟨hnow, htick⟩, hrest⟩ := hv
      by_cases hcnd : batch.length > 0
      · rw [runExec_tick_flush maxSize batch t rest hcnd] at hf
        rcases List.mem_cons.mp hf with rfl | hmem
        · refine ⟨k + 1, Nat.lt_succ_self k, ?_⟩
          push_cast
          simpa using htick
        · obtain ⟨m, hm, ht⟩ := ih t (k + 1) [] hrest f hmem hc
          exact ⟨m, by omega, ht⟩
      · rw [runExec_tick_empty maxSize batch t rest hcnd] at hf
        obtain ⟨m, hm, ht⟩ := ih t (k + 1) batch hrest f hf hc
        exact ⟨m, by omega, ht⟩
    | quit =>
      rw [runExec_halt_quit maxSize batch t rest] at hf
      split at hf
      · simp at hf
      · rcases List.mem_singleton.mp hf with rfl
        simp at hc
    | cancel =>
      rw [runExec_halt_cancel maxSize batch t rest] at hf
      split at hf
      · simp at hf
      · rcases List.mem_singleton.mp hf with rfl
        simp at hc

/-- C1: the wire timestamp is NOT the entry's milliseconds scaled to
nanoseconds.  `newLog` feeds `entry.Timestamp` — milliseconds since the
epoch — to `time.Unix` as whole seconds, so an entry at 5 ms is
transmitted as "5000000000" (5 ms × 10⁹) instead of the claimed
5 ms × 10⁶ = "5000000": sub-second intake precision is rescaled a
thousandfold rather than preserved. -/
theorem newLog_millis_as_seconds_bug :
    (newLog { level := "info", timestamp := 5, message := "m", caller := "c", raw := "x" }).head? =
      some "5000000000" ∧ ("5000000000" : String) ≠ "5000000" := by
  decide

/-- C2 (counterexample): after the parent context's cancellation is
observed with a non-empty batch, the deferred final flush still runs, so
a send IS issued after the cancellation signal — the claim's "no send is
ever issued after the cancellation signal is observed" is false. -/
theorem cancel_final_flush_cex :
    runExec 10 [newLog le0] [((3 : Int), Event.cancel)] =
      [{ cause := FlushCause.final, time := 3, values := [newLog le0] }] ∧
    [({ cause := FlushCause.final, time := 3, values := [newLog le0] } : Flush)] ≠ [] := by
  decide

/-- C2 (amended): external cancellation makes the background task stop
consuming events immediately, but the deferred final flush installed at
the top of `run` still executes: exactly one send of the pending batch
is issued after cancellation when the batch is non-empty, and none when
it is empty. -/
theorem cancel_runs_deferred_final_flush (maxSize : Int)
    (batch : List (List String)) (t : Int) (rest : List (Int × Event)) :
    runExec maxSize batch ((t, Event.cancel) :: rest) =
      if batch = [] then []
      else [{ cause := FlushCause.final, time := t, values := batch }] :=
  runExec_halt_cancel maxSize batch t rest

/-- C3: submitting exactly `maxBatchSize = N > 0` entries with no timer
fire in between produces exactly one flush, size-triggered, containing
all `N` entries in hand-off order. -/
theorem batch_full_single_flush (maxSize : Int) (es : List LogEntry)
    (h1 : 0 < maxSize) (h2 : (es.length : Int) = maxSize) :
    runExec maxSize [] (es.map (fun e => ((0 : Int), Event.arrive e))) =
      [{ cause := FlushCause.size, time := 0, values := es.map newLog }] := by
  have hne : es ≠ [] := by
    intro hn
    subst hn
    simp at h2
    omega
  have hr := runExec_arrivals_aux maxSize es [] hne (by simpa using h2)
  simpa using hr

/-- C3 witness: two entries with `maxBatchSize = 2` yield one flush of
both entries in order. -/
theorem batch_full_single_flush_witness :
    runExec 2 [] ([le0, le1].map (fun e => ((0 : Int), Event.arrive e))) =
      [{ cause := FlushCause.size, time := 0, values := [le0, le1].map newLog }] :=
  batch_full_single_flush 2 [le0, le1] (by decide) (by decide)

/-- C4: `Stop` (closing `quit`) with a non-empty pending batch causes
exactly one additional flush of exactly the pending entries before the
task terminates, and zero additional flushes when the batch is empty. -/
theorem stop_final_flush (maxSize : Int) (batch : List (List String)) (t : Int) :
    runExec maxSize batch [(t, Event.quit)] =
      if batch = [] then []
      else [{ cause := FlushCause.final, time := t, values := batch }] :=
  runExec_halt_quit maxSize batch t []

/-- C5 (counterexample): with `maxBatchWait = 10` and `maxBatchSize = 2`,
a size-triggered flush at time 2 does not reset the ticker, so the
timer-driven flush of the next entry fires at the originally scheduled
tick, time 10 — earlier than 2 + 10, contradicting the claim that the
next timer-driven flush can occur no earlier than `maxBatchWait` after a
size-triggered flush. -/
theorem size_flush_no_timer_reset_cex :
    validTraceFrom 10 0 0
      [((1 : Int), Event.arrive le0), (2, Event.arrive le1),
       (5, Event.arrive le2), (10, Event.tick)] = true ∧
    runExec 2 []
      [((1 : Int), Event.arrive le0), (2, Event.arrive le1),
       (5, Event.arrive le2), (10, Event.tick)] =
      [{ cause := FlushCause.size, time := 2, values := [newLog le0, newLog le1] },
       { cause := FlushCause.timer, time := 10, values := [newLog le2] }] ∧
    (10 : Int) < 2 + 10 := by
  decide

/-- C5 (amended): a size-triggered flush does not reset the flush timer;
the ticker keeps its original cadence, so every timer-driven flush
happens at a positive multiple of `maxBatchWait` counted from startup —
possibly less than `maxBatchWait` after a size-triggered flush. -/
theorem timer_flush_on_fixed_cadence (W maxSize : Int)
    (trace : List (Int × Event)) (f : Flush)
    (hW : 0 < W) (hv : validTraceFrom W 0 0 trace = true)
    (hf : f ∈ runExec maxSize [] trace) (hc : f.cause = FlushCause.timer) :
    W ≤ f.time ∧ f.time % W = 0 := by
  obtain ⟨m, hm, ht⟩ := runExec_timer_mult W maxSize trace 0 0 [] hv f hf hc
  rw [ht]
  constructor
  · have h1 : (1 : Int) ≤ (m : Int) := by exact_mod_cast hm
    exact le_mul_of_one_le_right (le_of_lt hW) h1
  · exact Int.mul_emod_right W m

/-- C5 witness: in the valid trace with one arrival and the first tick
at time 10, the timer-driven flush fires at time 10, a multiple of the
wait of 10. -/
theorem timer_flush_on_fixed_cadence_witness :
    (10 : Int) ≤
      ({ cause := FlushCause.timer, time := 10, values := [newLog le0] } : Flush).time ∧
    ({ cause := FlushCause.timer, time := 10, values := [newLog le0] } : Flush).time % 10 = 0 :=
  timer_flush_on_fixed_cadence 10 5 [((1 : Int), Event.arrive le0), ((10 : Int), Event.tick)]
    { cause := FlushCause.timer, time := 10, values := [newLog le0] }
    (by decide) (by decide) (by decide) (by decide)

/-- C6: with `maxBatchSize > 0`, every batch state the `run` loop
reaches from the empty initial buffer has length at most `maxBatchSize`,
and whenever an iteration attempts a transmission — succeeding or
failing — the buffer is reset to empty. -/
theorem batch_bounded_and_reset (maxSize : Int) (events : List Event)
    (b : List (List String)) (sendErr : Option String)
    (batch : List (List String)) (ev : Event)
    (h : 0 < maxSize) (hb : b ∈ runStates maxSize [] events)
    (hf : ((runStep maxSize sendErr batch ev).flushed).isSome = true) :
    (b.length : Int) ≤ maxSize ∧ (runStep maxSize sendErr batch ev).batch = [] :=
  ⟨runStates_length_le maxSize (le_of_lt h) events [] (by simpa using h.le) b hb,
   runStep_flush_resets maxSize sendErr batch ev hf⟩

/-- C6 witness: with `maxBatchSize = 2`, the state after one arrival has
length 1 ≤ 2, and a tick that flushes under a failing send still resets
the batch. -/
theorem batch_bounded_and_reset_witness :
    (([newLog le0].length : Int) ≤ 2) ∧
    (runStep 2 (some "boom") [newLog le0] Event.tick).batch = [] :=
  batch_bounded_and_reset 2 [Event.arrive le0] [newLog le0] (some "boom")
    [newLog le0] Event.tick (by decide) (by decide) (by decide)

/-- C7: the sink's `Write` refines the spec's intake contract: a
malformed byte sequence returns the parse error and hands nothing off;
a well-formed one queues exactly one entry whose raw payload is the
input verbatim and returns the input length with no error. -/
theorem sinkWrite_spec (um : String → Except String LogEntry) (p : String) :
    sinkWrite um p = writeSpec p (um p) := by
  cases hu : um p <;> simp [sinkWrite, writeSpec, hu]

/-- C8: `send` succeeds exactly on HTTP 204 — the status check returns
no error iff the code is 204; `Hook` always returns `nil` to the
submitting caller; and the outcome of a send changes nothing in the
loop's state or control flow — it only determines the error-log
output. -/
theorem send_status_and_error_isolation :
    (∀ (code : Nat) (status : String), sendStatusResult code status = none ↔ code = 204) ∧
    (∀ (e : ZapEntry), (Hook e).2 = none) ∧
    (∀ (maxSize : Int) (m : String) (batch : List (List String)) (ev : Event),
      (runStep maxSize (some m) batch ev).batch = (runStep maxSize none batch ev).batch ∧
      (runStep maxSize (some m) batch ev).flushed = (runStep maxSize none batch ev).flushed ∧
      (runStep maxSize (some m) batch ev).returned = (runStep maxSize none batch ev).returned ∧
      (runStep maxSize (some m) batch ev).logged =
        (if ((runStep maxSize (some m) batch ev).flushed).isSome = true
         then ["failed to send logs: " ++ m] else [])) := by
  refine ⟨?_, ?_, ?_⟩
  · intro code status
    by_cases hc : code = 204 <;> simp [sendStatusResult, statusNoContent, hc]
  · intro e; rfl
  · intro maxSize m batch ev
    cases ev <;> simp [runStep, sendLogMsg] <;> split <;> simp [sendLogMsg]

/-- C9 (counterexample): with `maxBatchSize = -1`, a single entry
arrival immediately causes a flush — with a zero or negative maximum the
size check `len(batch) >= BatchMaxSize` is always true after an append,
so the flush policy triggers on every arrival rather than never. -/
theorem nonpositive_batch_size_flush_cex :
    runExec (-1) [] [((0 : Int), Event.arrive le1)] =
      [{ cause := FlushCause.size, time := 0, values := [newLog le1] }] ∧
    [({ cause := FlushCause.size, time := 0, values := [newLog le1] } : Flush)] ≠ [] := by
  decide

/-- C9 (amended): with `maxBatchSize ≤ 0`, every entry arrival triggers
an immediate size flush of a single-entry batch; entries never
accumulate. -/
theorem nonpositive_batch_size_every_arrival_flushes (maxSize : Int) (es : List LogEntry)
    (h : maxSize ≤ 0) :
    runExec maxSize [] (es.map (fun e => ((0 : Int), Event.arrive e))) =
      es.map (fun e => { cause := FlushCause.size, time := 0, values := [newLog e] }) := by
  induction es with
  | nil => rfl
  | cons e tl ih =>
    simp only [List.map_cons]
    rw [runExec_arrive_flush maxSize [] e 0 _ (by simp; omega)]
    rw [ih]
    simp

/-- C9 amended witness: with `maxBatchSize = 0`, one arrival yields one
single-entry flush. -/
theorem nonpositive_batch_size_every_arrival_flushes_witness :
    runExec 0 [] ([le2].map (fun e => ((0 : Int), Event.arrive e))) =
      [le2].map (fun e => { cause := FlushCause.size, time := 0, values := [newLog e] }) :=
  nonpositive_batch_size_every_arrival_flushes 0 [le2] (by decide)

/-- C10: `Hook` never sets `raw`, so for every entry arriving through
the direct hook the second element of the wire value pair is the empty
string — here an entry with the non-empty message "test message" is
transmitted with payload "" — contradicting the claim that the payload
is the record text reconstructed from fields and never empty for a
non-empty message. -/
theorem hook_empty_payload_bug :
    ((Hook { levelString := "info", timeUnixMilli := 3, message := "test message",
             callerTrimmedPath := "main.go:10" }).1).raw = "" ∧
    (newLog (Hook { levelString := "info", timeUnixMilli := 3, message := "test message",
                    callerTrimmedPath := "main.go:10" }).1).get? 1 = some "" ∧
    "test message" ≠ "" := by
  decide

end ZapLoki
